import Mathlib

/-!
Shallow embedding of the chain-identifier codec, the permission reducer, the
session reconciler's account update, and the request gate of the alephium
walletconnect provider (`src/provider.ts`, `src/index.ts`).

JavaScript strings are modelled as `List Char`; JavaScript numbers that can be
`NaN` (the results of `parseInt` and of unary plus) are modelled as
`Option Int`, with `none` standing for `NaN`; `undefined` values are modelled
with `Option` as well, at the use site.
-/

namespace WCModel

/-- A JavaScript string, modelled as its list of characters. -/
abbrev JSStr := List Char

/-- A JavaScript number that may be `NaN`: `none` stands for `NaN`. -/
abbrev JSNum := Option Int

/-- Numeric value of a decimal digit character, `none` for a non-digit. -/
def digitVal (c : Char) : Option Nat :=
  if '0' ≤ c ∧ c ≤ '9' then some (c.toNat - '0'.toNat) else none

/-- The decimal digit character for a value below ten. -/
def digitOfNat (d : Nat) : Char := Char.ofNat ('0'.toNat + d)

/-- Decimal representation of a natural number, most significant digit first,
with explicit fuel; fuel `n + 1` always suffices. -/
def natToCharsAux : Nat → Nat → List Char
  | 0, _ => []
  | fuel + 1, n =>
    if n < 10 then [digitOfNat n]
    else natToCharsAux fuel (n / 10) ++ [digitOfNat (n % 10)]

/-- Decimal representation of a natural number, as JavaScript prints one. -/
def natToChars (n : Nat) : List Char := natToCharsAux (n + 1) n

/-- JavaScript `Number.prototype.toString` for integer values: decimal digits,
with a leading minus sign on negative values. -/
def intToChars (i : Int) : List Char :=
  if i < 0 then '-' :: natToChars i.natAbs else natToChars i.natAbs

/-- Accumulating decimal reader: consumes the longest digit prefix and ignores
the rest, as JavaScript `parseInt` does after the sign. -/
def readDigitsAux (acc : Nat) : List Char → Nat
  | [] => acc
  | c :: cs =>
    match digitVal c with
    | some d => readDigitsAux (acc * 10 + d) cs
    | none => acc

/-- Value of the longest digit prefix; `none` when the string does not start
with a digit. -/
def readDigits : List Char → Option Nat
  | [] => none
  | c :: cs => if (digitVal c).isSome then some (readDigitsAux 0 (c :: cs)) else none

/-- Drop leading whitespace, as JavaScript number parsing does. -/
def skipWs : List Char → List Char
  | [] => []
  | c :: cs => if c = ' ' ∨ c = '\t' ∨ c = '\n' ∨ c = '\r' then skipWs cs else c :: cs

/-- JavaScript `parseInt(s, 10)` on a string: skip whitespace, read an optional
sign, then the longest digit prefix; `NaN` when no digit follows. -/
def jsParseIntChars (s : JSStr) : JSNum :=
  match skipWs s with
  | [] => none
  | c :: cs =>
    if c = '-' then (readDigits cs).map (fun n => -(n : Int))
    else if c = '+' then (readDigits cs).map (fun n => (n : Int))
    else (readDigits (c :: cs)).map (fun n => (n : Int))

/-- JavaScript `parseInt(x, 10)` where `x` may be `undefined`:
`parseInt(undefined)` stringifies the argument to `"undefined"` and yields
`NaN`. -/
def jsParseIntOpt (s : Option JSStr) : JSNum :=
  match s with
  | none => none
  | some s => jsParseIntChars s

/-- JavaScript `String.prototype.split(":")`: split on colons, keeping empty
pieces; the result is always non-empty. -/
def jsSplitColon : List Char → List (List Char)
  | [] => [[]]
  | c :: cs =>
    if c = ':' then [] :: jsSplitColon cs
    else
      match jsSplitColon cs with
      | [] => [[c]]
      | r :: rs => (c :: r) :: rs

/-- JavaScript `s.replace(/\//g, ":")`: every slash becomes a colon. -/
def jsReplaceSlash (s : JSStr) : JSStr := s.map fun c => if c = '/' then ':' else c

/-- JavaScript `s.replace(/\+|\//g, ":")`: plus signs and slashes become
colons. -/
def jsReplacePlusSlash (s : JSStr) : JSStr :=
  s.map fun c => if c = '+' ∨ c = '/' then ':' else c

/-- JavaScript `<` on possibly-`NaN` numbers: every comparison with `NaN` is
false. -/
def jsLt (a b : JSNum) : Bool :=
  match a, b with
  | some x, some y => decide (x < y)
  | _, _ => false

/-- JavaScript `Array.prototype.join()` with the default comma separator. -/
def jsJoin (l : List JSStr) : JSStr := List.intercalate [','] l

/-- Leading and trailing whitespace removed. -/
def trimWs (s : List Char) : List Char := (skipWs (skipWs s).reverse).reverse

/-- Value of a string that consists entirely of digits, `none` otherwise. -/
def readAllDigits (s : List Char) : Option Nat :=
  if s ≠ [] ∧ s.all (fun c => (digitVal c).isSome) then some (readDigitsAux 0 s) else none

/-- JavaScript `Number(x)` (unary plus) restricted to optional-sign decimal
integers: `undefined` and non-numeric strings give `NaN`, a blank string gives
zero. -/
def jsToNumber : Option JSStr → JSNum
  | none => none
  | some s =>
    let t := trimWs s
    if t = [] then some 0
    else
      match t with
      | '-' :: rest => (readAllDigits rest).map fun n => -(n : Int)
      | '+' :: rest => (readAllDigits rest).map fun n => (n : Int)
      | _ => (readAllDigits t).map fun n => (n : Int)

/-- The provider namespace literal (`PROVIDER_NAMESPACE` in
`src/constants.ts`). -/
def namespaceChars : JSStr := "alephium".data

/-- `formatChain` of `src/provider.ts`: throws when a defined chain group is
negative; `undefined` is encoded as `-1`. -/
def formatChain (networkId : Int) (chainGroup : Option Int) : Except JSStr JSStr :=
  if chainGroup ≠ none ∧ chainGroup.getD 0 < 0 then
    .error "Chain group in provider needs to be either undefined or non-negative".data
  else
    let chainGroupEncoded : Int :=
      match chainGroup with
      | some g => g
      | none => -1
    .ok (namespaceChars ++ ':' :: intToChars networkId ++ '/' :: intToChars chainGroupEncoded)

/-- `parseChain` of `src/provider.ts`: replace slashes with colons, split on
colons, `parseInt` the second and third components; throws exactly when the
decoded group compares below `-1` (a comparison with `NaN` is false); a decoded
`-1` maps back to `undefined`, the any sentinel. Either component may come out
as `NaN`. -/
def parseChain (chainString : JSStr) : Except JSStr (JSNum × Option JSNum) :=
  let comps := jsSplitColon (jsReplaceSlash chainString)
  let networkId := jsParseIntOpt (comps.get? 1)
  let chainGroupDecoded := jsParseIntOpt (comps.get? 2)
  if jsLt chainGroupDecoded (some (-1)) then
    .error "Chain group in protocol needs to be either -1 or non-negative".data
  else
    .ok (networkId, if chainGroupDecoded == some (-1) then none else some chainGroupDecoded)

/-- The external cryptographic routines of `@alephium/web3`
(`addressFromPublicKey`, `groupOfAddress`), out of scope for the repository:
modelled as an arbitrary pair of total functions. -/
structure Crypto where
  addressFromPublicKey : Option JSStr → JSStr
  groupOfAddress : JSStr → Int

/-- An account as reconstructed by `parseAccount` of `src/provider.ts`. -/
structure AccountP where
  address : JSStr
  group : Int
  publicKey : Option JSStr
deriving DecidableEq, Inhabited

/-- `parseAccount` of `src/provider.ts`: take the fourth colon-separated
component as the public key, recompute the address from it and the group from
the address. -/
def parseAccount (crypto : Crypto) (account : JSStr) : AccountP :=
  let comps := jsSplitColon (jsReplaceSlash account)
  let publicKey := comps.get? 3
  let address := crypto.addressFromPublicKey publicKey
  let group := crypto.groupOfAddress address
  ⟨address, group, publicKey⟩

/-- An account as reconstructed by the legacy `parseAccount` of `src/index.ts`
(first variant, lines 369–376): every field is taken verbatim from the wire, so
the address may be `undefined` and the group may be `NaN`. -/
structure AccountL where
  address : Option JSStr
  publicKey : Option JSStr
  group : JSNum
deriving DecidableEq

/-- Legacy `parseAccount` of `src/index.ts` (lines 369–376): replace `+` and
`/` with `:`, split, and return the embedded address, public key, and group
(the group through unary plus), without consulting the cryptographic
routines. -/
def parseAccountLegacy (account : JSStr) : AccountL :=
  let comps := jsSplitColon (jsReplacePlusSlash account)
  ⟨comps.get? 3, comps.get? 4, jsToNumber (comps.get? 2)⟩

/-- The permitted-chain-groups table (`PermittedChainGroups`, a
`Record<NetworkId, ChainGroup[]>` in `src/index.ts`), as an association list
from network id to group list. -/
abbrev PermittedChainGroups := List (Int × List Int)

/-- Lookup `acc[networkId]` on the table. -/
def getGroups (t : PermittedChainGroups) (networkId : Int) : Option (List Int) :=
  (t.find? fun e => e.1 == networkId).map (·.2)

/-- Assignment `acc[networkId] = gs`: replace the entry in place, or append a
new one. -/
def setGroups (t : PermittedChainGroups) (networkId : Int) (gs : List Int) :
    PermittedChainGroups :=
  match t with
  | [] => [(networkId, gs)]
  | e :: rest =>
    if e.1 = networkId then (networkId, gs) :: rest else e :: setGroups rest networkId gs

/-- One step of the `reduce` in `getPermittedChainGroups` of `src/index.ts` on
a `(networkId, chainGroup)` pair: the entry is created if missing, a list that
contains `-1` absorbs the pair, an incoming `-1` replaces the list with `[-1]`,
and an unseen concrete group is appended. -/
def permittedStep (acc : PermittedChainGroups) (info : Int × Int) : PermittedChainGroups :=
  let networkId := info.1
  let chainGroup := info.2
  let cur := (getGroups acc networkId).getD []
  if cur.contains (-1) then setGroups acc networkId cur
  else if chainGroup = -1 then setGroups acc networkId [-1]
  else if cur.contains chainGroup then setGroups acc networkId cur
  else setGroups acc networkId (cur ++ [chainGroup])

/-- `getPermittedChainGroups` of `src/index.ts`: fold the requested pairs in
input order, starting from the empty table. -/
def getPermittedChainGroups (infos : List (Int × Int)) : PermittedChainGroups :=
  infos.foldl permittedStep []

/-- `formatChain` of `src/index.ts` (second variant, line 732): plain
interpolation, no validation. -/
def formatChainIdx (networkId : Int) (chainGroup : Int) : JSStr :=
  namespaceChars ++ ':' :: intToChars networkId ++ '/' :: intToChars chainGroup

/-- `getPermittedChainId` of `src/index.ts`: look the network up in the
optional table; a list containing `-1` answers with the any-group identifier;
otherwise a contained concrete group answers with its own identifier; else not
permitted (`undefined`). -/
def getPermittedChainId (networkId : Int) (chainGroup : Int)
    (permittedChainGroups : Option PermittedChainGroups) : Option JSStr :=
  match permittedChainGroups.bind (fun t => getGroups t networkId) with
  | none => none
  | some chainGroups =>
    if chainGroups.contains (-1) then some (formatChainIdx networkId (-1))
    else if chainGroups.contains chainGroup then some (formatChainIdx networkId chainGroup)
    else none

/-- `isCompatibleChainGroup` of `src/provider.ts`: an undefined expected group
accepts everything, otherwise the groups must be equal. -/
def isCompatibleChainGroup (group : Int) (expectedChainGroup : Option Int) : Bool :=
  expectedChainGroup == none || expectedChainGroup == some group

/-- The slice of the `WalletConnectProvider` state of `src/provider.ts` that
`setAccounts` reads and writes. -/
structure ProviderState where
  chainGroup : Option Int
  account : Option AccountP
  lastSetAccounts : Option (List AccountP)
deriving DecidableEq

/-- Result of one `setAccounts` call: the state after the call, the
`accountChanged` events emitted, and the message thrown, if any; mutations made
before a throw are kept, as in the source. -/
structure SetAccountsResult where
  state : ProviderState
  emitted : List AccountP
  thrown : Option JSStr
deriving DecidableEq

/-- `sameAccounts` of `src/provider.ts`: an `undefined` second list compares
unequal; otherwise the comma-joined address lists are compared. -/
def sameAccounts (account0 : List AccountP) (account1 : Option (List AccountP)) : Bool :=
  match account1 with
  | none => false
  | some l => jsJoin (account0.map (·.address)) == jsJoin (l.map (·.address))

/-- `setAccounts` of `src/provider.ts`: parse the wire accounts; a list equal
to the last-seen one is a no-op; otherwise record it, then throw on lists that
are not a singleton, throw on a group incompatible with the configured chain
group, and otherwise select the account and emit `accountChanged`. -/
def setAccounts (crypto : Crypto) (st : ProviderState) (accounts : List JSStr) :
    SetAccountsResult :=
  let parsedAccounts := accounts.map (parseAccount crypto)
  if sameAccounts parsedAccounts st.lastSetAccounts then ⟨st, [], none⟩
  else
    let st1 := { st with lastSetAccounts := some parsedAccounts }
    if parsedAccounts.length ≠ 1 then
      ⟨st1, [], some "The WC provider does not supports multiple accounts".data⟩
    else
      let newAccount := parsedAccounts.headI
      if !isCompatibleChainGroup newAccount.group st.chainGroup then
        ⟨st1, [], some "The new account belongs to an unexpected chain group".data⟩
      else
        ⟨{ st1 with account := some newAccount }, [newAccount], none⟩

/-- The request parameters: the only field the gate inspects is
`signerAddress`. -/
structure RequestParams where
  signerAddress : Option JSStr
deriving DecidableEq

/-- An outbound request: a method name and optional parameters. -/
structure RequestArgs where
  method : JSStr
  params : Option RequestParams
deriving DecidableEq

/-- `request` of `src/provider.ts`: reject a method outside the configured
list; for a method that does not start with `alph_request`, require
`params.signerAddress` to exist and to equal the selected account's address
(`getSelectedAccount` throws when no account is selected); on success forward
the method and params to the sign client. -/
def request (methods : List JSStr) (account : Option AccountP) (args : RequestArgs) :
    Except JSStr (JSStr × Option RequestParams) :=
  if !methods.contains args.method then
    .error ("Invalid method was passed: ".data ++ args.method)
  else if !("alph_request".data).isPrefixOf args.method then
    match args.params.bind (·.signerAddress) with
    | none => .error "Cannot request without signerAddress".data
    | some signerAddress =>
      match account with
      | none => .error "Account is not available".data
      | some selectedAccount =>
        if signerAddress ≠ selectedAccount.address then
          .error ("Invalid signer address: ".data ++ signerAddress)
        else .ok (args.method, args.params)
  else .ok (args.method, args.params)

/-! Lemmas about the decimal printer and the `parseInt` reader. -/

theorem natToCharsAux_succ (fuel n : Nat) :
    natToCharsAux (fuel + 1) n =
      if n < 10 then [digitOfNat n]
      else natToCharsAux fuel (n / 10) ++ [digitOfNat (n % 10)] := rfl

theorem natToCharsAux_irrel (n : Nat) :
    ∀ f1 f2, n < f1 → n < f2 → natToCharsAux f1 n = natToCharsAux f2 n := by
  induction n using Nat.strong_induction_on with
  | _ n ih =>
    intro f1 f2 h1 h2
    cases f1 with
    | zero => omega
    | succ k1 =>
      cases f2 with
      | zero => omega
      | succ k2 =>
        simp only [natToCharsAux_succ]
        by_cases h10 : n < 10
        · simp [h10]
        · have hrec : n / 10 < n := Nat.div_lt_self (by omega) (by omega)
          rw [if_neg h10, if_neg h10, ih (n / 10) hrec k1 (k1 + 1) (by omega) (by omega),
            ih (n / 10) hrec (k1 + 1) k2 (by omega) (by omega),
            ih (n / 10) hrec k2 (k2 + 1) (by omega) (by omega)]

theorem natToChars_lt (n : Nat) (h : n < 10) : natToChars n = [digitOfNat n] := by
  rw [natToChars, natToCharsAux_succ, if_pos h]

theorem natToChars_ge (n : Nat) (h : 10 ≤ n) :
    natToChars n = natToChars (n / 10) ++ [digitOfNat (n % 10)] := by
  have hrec : n / 10 < n := Nat.div_lt_self (by omega) (by omega)
  conv_lhs => rw [natToChars, natToCharsAux_succ, if_neg (by omega : ¬ n < 10)]
  rw [natToChars, natToCharsAux_irrel (n / 10) n (n / 10 + 1) hrec (by omega)]

theorem digitVal_digitOfNat (d : Nat) (h : d < 10) : digitVal (digitOfNat d) = some d := by
  interval_cases d <;> decide

theorem natToChars_all_digits (n : Nat) : ∀ c ∈ natToChars n, (digitVal c).isSome := by
  induction n using Nat.strong_induction_on with
  | _ n ih =>
    by_cases h10 : n < 10
    · rw [natToChars_lt n h10]
      intro c hc
      rw [List.mem_singleton] at hc
      subst hc
      rw [digitVal_digitOfNat n h10]
      rfl
    · rw [natToChars_ge n (by omega)]
      intro c hc
      rcases List.mem_append.mp hc with h | h
      · exact ih (n / 10) (Nat.div_lt_self (by omega) (by omega)) c h
      · rw [List.mem_singleton] at h
        subst h
        rw [digitVal_digitOfNat (n % 10) (Nat.mod_lt n (by omega))]
        rfl

theorem natToChars_ne_nil (n : Nat) : natToChars n ≠ [] := by
  by_cases h10 : n < 10
  · rw [natToChars_lt n h10]; simp
  · rw [natToChars_ge n (by omega)]; simp

theorem digit_ne (c x : Char) (hc : (digitVal c).isSome) (hx : digitVal x = none) : c ≠ x := by
  intro h
  subst h
  rw [hx] at hc
  simp at hc

theorem readDigitsAux_append (l1 l2 : List Char) (hd : ∀ c ∈ l1, (digitVal c).isSome) :
    ∀ acc, readDigitsAux acc (l1 ++ l2) = readDigitsAux (readDigitsAux acc l1) l2 := by
  induction l1 with
  | nil => intro acc; simp [readDigitsAux]
  | cons c cs ih =>
    intro acc
    obtain ⟨d, hd'⟩ := Option.isSome_iff_exists.mp (hd c (by simp))
    simp only [List.cons_append, readDigitsAux, hd']
    exact ih (fun c hc => hd c (by simp [hc])) (acc * 10 + d)

theorem readDigitsAux_natToChars (n : Nat) :
    ∀ acc, readDigitsAux acc (natToChars n) = acc * 10 ^ (natToChars n).length + n := by
  induction n using Nat.strong_induction_on with
  | _ n ih =>
    intro acc
    by_cases h10 : n < 10
    · rw [natToChars_lt n h10]
      simp [readDigitsAux, digitVal_digitOfNat n h10]
    · rw [natToChars_ge n (by omega)]
      rw [readDigitsAux_append _ _
        (natToChars_all_digits (n / 10)) acc]
      rw [ih (n / 10) (Nat.div_lt_self (by omega) (by omega)) acc]
      simp only [readDigitsAux, digitVal_digitOfNat (n % 10) (Nat.mod_lt n (by omega))]
      rw [List.length_append]
      simp only [List.length_singleton]
      rw [pow_succ]
      have : 10 * (n / 10) + n % 10 = n := Nat.div_add_mod n 10
      ring_nf
      omega

theorem readDigits_natToChars (n : Nat) : readDigits (natToChars n) = some n := by
  have hall := natToChars_all_digits n
  cases h : natToChars n with
  | nil => exact absurd h (natToChars_ne_nil n)
  | cons c cs =>
    have hc : (digitVal c).isSome := hall c (by rw [h]; simp)
    have hv := readDigitsAux_natToChars n 0
    rw [h] at hv
    simp only [readDigits, hc, if_pos]
    rw [hv]
    simp

theorem skipWs_of_digit (c : Char) (cs : List Char) (hc : (digitVal c).isSome) :
    skipWs (c :: cs) = c :: cs := by
  have h1 := digit_ne c ' ' hc (by decide)
  have h2 := digit_ne c '\t' hc (by decide)
  have h3 := digit_ne c '\n' hc (by decide)
  have h4 := digit_ne c '\r' hc (by decide)
  simp [skipWs, h1, h2, h3, h4]

theorem jsParseIntChars_natToChars (n : Nat) : jsParseIntChars (natToChars n) = some (n : Int) := by
  have hall := natToChars_all_digits n
  cases h : natToChars n with
  | nil => exact absurd h (natToChars_ne_nil n)
  | cons c cs =>
    have hc : (digitVal c).isSome := hall c (by rw [h]; simp)
    have hminus := digit_ne c '-' hc (by decide)
    have hplus := digit_ne c '+' hc (by decide)
    simp only [jsParseIntChars, skipWs_of_digit c cs hc, if_neg hminus, if_neg hplus]
    have := readDigits_natToChars n
    rw [h] at this
    rw [this]
    rfl

theorem jsParseIntChars_intToChars (i : Int) : jsParseIntChars (intToChars i) = some i := by
  by_cases hi : i < 0
  · simp only [intToChars, if_pos hi]
    have hskip : skipWs ('-' :: natToChars i.natAbs) = '-' :: natToChars i.natAbs := rfl
    simp only [jsParseIntChars, hskip, readDigits_natToChars i.natAbs]
    simp
    rw [abs_of_neg hi]
    ring
  · simp only [intToChars, if_neg hi]
    rw [jsParseIntChars_natToChars i.natAbs]
    congr 1
    omega

/-! Lemmas about split and replace, and the shape of a formatted chain. -/

theorem jsSplitColon_no_colon (l : List Char) (h : ':' ∉ l) : jsSplitColon l = [l] := by
  induction l with
  | nil => rfl
  | cons c cs ih =>
    have hc : ¬ c = ':' := fun hc => h (by simp [hc])
    have ht : ':' ∉ cs := fun hm => h (by simp [hm])
    simp only [jsSplitColon, if_neg hc, ih ht]

theorem jsSplitColon_append (l r : List Char) (h : ':' ∉ l) :
    jsSplitColon (l ++ ':' :: r) = l :: jsSplitColon r := by
  induction l with
  | nil => simp [jsSplitColon]
  | cons c cs ih =>
    have hc : ¬ c = ':' := fun hc => h (by simp [hc])
    have ht : ':' ∉ cs := fun hm => h (by simp [hm])
    show (if c = ':' then [] :: jsSplitColon (cs ++ ':' :: r)
        else
          match jsSplitColon (cs ++ ':' :: r) with
          | [] => [[c]]
          | x :: xs => (c :: x) :: xs) = (c :: cs) :: jsSplitColon r
    rw [if_neg hc, ih ht]

theorem jsReplaceSlash_no_slash (l : List Char) (h : '/' ∉ l) : jsReplaceSlash l = l := by
  induction l with
  | nil => rfl
  | cons c cs ih =>
    have hc : ¬ c = '/' := fun hc => h (by simp [hc])
    have ht : '/' ∉ cs := fun hm => h (by simp [hm])
    show (if c = '/' then ':' else c) :: jsReplaceSlash cs = c :: cs
    rw [if_neg hc, ih ht]

theorem natToChars_no_colon (n : Nat) : ':' ∉ natToChars n := by
  intro hm
  have h1 := natToChars_all_digits n ':' hm
  have h2 : digitVal ':' = none := by decide
  rw [h2] at h1
  exact absurd h1 (by simp)

theorem natToChars_no_slash (n : Nat) : '/' ∉ natToChars n := by
  intro hm
  have h1 := natToChars_all_digits n '/' hm
  have h2 : digitVal '/' = none := by decide
  rw [h2] at h1
  exact absurd h1 (by simp)

theorem intToChars_no_colon (i : Int) : ':' ∉ intToChars i := by
  intro hm
  rw [intToChars] at hm
  by_cases hi : i < 0
  · rw [if_pos hi] at hm
    rcases List.mem_cons.mp hm with h | h
    · exact absurd h (by decide)
    · exact natToChars_no_colon i.natAbs h
  · rw [if_neg hi] at hm
    exact natToChars_no_colon i.natAbs hm

theorem intToChars_no_slash (i : Int) : '/' ∉ intToChars i := by
  intro hm
  rw [intToChars] at hm
  by_cases hi : i < 0
  · rw [if_pos hi] at hm
    rcases List.mem_cons.mp hm with h | h
    · exact absurd h (by decide)
    · exact natToChars_no_slash i.natAbs h
  · rw [if_neg hi] at hm
    exact natToChars_no_slash i.natAbs hm

theorem ns_no_colon : ':' ∉ namespaceChars := by decide

theorem ns_no_slash : '/' ∉ namespaceChars := by decide

theorem jsReplaceSlash_format (n e : Int) :
    jsReplaceSlash (namespaceChars ++ ':' :: intToChars n ++ '/' :: intToChars e) =
      namespaceChars ++ (':' :: (intToChars n ++ (':' :: intToChars e))) := by
  have h1 := jsReplaceSlash_no_slash namespaceChars ns_no_slash
  have h2 := jsReplaceSlash_no_slash (intToChars n) (intToChars_no_slash n)
  have h3 := jsReplaceSlash_no_slash (intToChars e) (intToChars_no_slash e)
  simp only [jsReplaceSlash] at h1 h2 h3 ⊢
  rw [List.append_assoc, List.cons_append, List.map_append, h1, List.map_cons,
    List.map_append, h2, List.map_cons, h3]
  simp

theorem jsSplitColon_format (n e : Int) :
    jsSplitColon (namespaceChars ++ (':' :: (intToChars n ++ (':' :: intToChars e)))) =
      [namespaceChars, intToChars n, intToChars e] := by
  rw [jsSplitColon_append _ _ ns_no_colon,
    jsSplitColon_append _ _ (intToChars_no_colon n),
    jsSplitColon_no_colon _ (intToChars_no_colon e)]

theorem parseChain_format (n e : Int) :
    parseChain (namespaceChars ++ ':' :: intToChars n ++ '/' :: intToChars e) =
      if e < -1 then
        .error "Chain group in protocol needs to be either -1 or non-negative".data
      else
        .ok (some n, if e = -1 then none else some (some e)) := by
  simp only [parseChain, jsReplaceSlash_format, jsSplitColon_format]
  simp only [List.get?, jsParseIntOpt, jsParseIntChars_intToChars]
  simp only [jsLt]
  by_cases hlt : e < -1
  · simp [hlt]
  · simp only [decide_eq_true_eq] at *
    rw [if_neg hlt, if_neg hlt]
    by_cases he : e = -1
    · simp [he]
    · simp [he]

/-! Lemmas about the permitted-chain-groups table. -/

theorem getGroups_nil (n : Int) : getGroups [] n = none := rfl

theorem getGroups_cons (a : Int × List Int) (t : PermittedChainGroups) (n : Int) :
    getGroups (a :: t) n = if a.1 = n then some a.2 else getGroups t n := by
  by_cases h : a.1 = n
  · rw [if_pos h]
    unfold getGroups
    rw [List.find?_cons_of_pos _ (by simp [h])]
    rfl
  · rw [if_neg h]
    unfold getGroups
    rw [List.find?_cons_of_neg _ (by simp [h])]

theorem setGroups_nil (n : Int) (gs : List Int) : setGroups [] n gs = [(n, gs)] := rfl

theorem setGroups_cons (a : Int × List Int) (t : PermittedChainGroups) (n : Int) (gs : List Int) :
    setGroups (a :: t) n gs =
      if a.1 = n then (n, gs) :: t else a :: setGroups t n gs := rfl

theorem getGroups_setGroups (t : PermittedChainGroups) (n : Int) (gs : List Int) (m : Int) :
    getGroups (setGroups t n gs) m = if m = n then some gs else getGroups t m := by
  induction t with
  | nil =>
    rw [setGroups_nil, getGroups_cons, getGroups_nil]
    by_cases h : m = n
    · have h1 : (n, gs).1 = m := by simp [h]
      rw [if_pos h1, if_pos h]
    · have h1 : ¬ (n, gs).1 = m := by simp; exact fun hh => h hh.symm
      rw [if_neg h1, if_neg h]
  | cons a rest ih =>
    rw [setGroups_cons]
    by_cases ha : a.1 = n
    · rw [if_pos ha, getGroups_cons, getGroups_cons]
      by_cases hm : m = n
      · have h1 : (n, gs).1 = m := by simp [hm]
        rw [if_pos h1, if_pos hm]
      · have h1 : ¬ (n, gs).1 = m := by simp; exact fun hh => hm hh.symm
        have h2 : ¬ a.1 = m := fun hh => hm (by rw [← hh]; exact ha)
        rw [if_neg h1, if_neg hm, if_neg h2]
    · rw [if_neg ha, getGroups_cons, getGroups_cons, ih]
      by_cases hm : m = n
      · have h2 : ¬ a.1 = m := fun hh => ha (by rw [hh]; exact hm)
        rw [if_neg h2, if_pos hm, if_pos hm]
      · rw [if_neg hm, if_neg hm]

theorem setGroups_self (t : PermittedChainGroups) (n : Int) (gs : List Int)
    (h : getGroups t n = some gs) : setGroups t n gs = t := by
  induction t with
  | nil => rw [getGroups_nil] at h; exact absurd h (by simp)
  | cons a rest ih =>
    rw [getGroups_cons] at h
    by_cases ha : a.1 = n
    · rw [if_pos ha] at h
      rw [setGroups_cons, if_pos ha]
      have : a.2 = gs := by injection h
      rw [← this, ← ha]
    · rw [if_neg ha] at h
      rw [setGroups_cons, if_neg ha, ih h]

theorem permittedStep_absorb (acc : PermittedChainGroups) (n g : Int)
    (h : getGroups acc n = some [-1]) : permittedStep acc (n, g) = acc := by
  have hc : (((getGroups acc n).getD []).contains (-1)) = true := by
    rw [h]; decide
  unfold permittedStep
  simp only [h, Option.getD_some] at hc ⊢
  rw [if_pos hc]
  exact setGroups_self acc n [-1] h

theorem permittedStep_any (acc : PermittedChainGroups) (n : Int)
    (h : (-1) ∉ (getGroups acc n).getD []) :
    permittedStep acc (n, -1) = setGroups acc n [-1] := by
  have hc : (((getGroups acc n).getD []).contains (-1)) = false := by
    simpa using h
  unfold permittedStep
  simp [hc, h]

theorem permittedStep_concrete (acc : PermittedChainGroups) (n g : Int) (hg : g ≠ -1)
    (h : (-1) ∉ (getGroups acc n).getD []) :
    permittedStep acc (n, g) =
      if g ∈ (getGroups acc n).getD [] then setGroups acc n ((getGroups acc n).getD [])
      else setGroups acc n ((getGroups acc n).getD [] ++ [g]) := by
  have hc : (((getGroups acc n).getD []).contains (-1)) = false := by
    simpa using h
  unfold permittedStep
  by_cases hmem : g ∈ (getGroups acc n).getD []
  · have hcg : (((getGroups acc n).getD []).contains g) = true := by simpa using hmem
    simp [hc, hcg, hmem, hg, h]
  · have hcg : (((getGroups acc n).getD []).contains g) = false := by simpa using hmem
    simp [hc, hcg, hmem, hg, h]

/-- The table invariant: every stored group list is duplicate-free, and a list
that contains the any sentinel `-1` is exactly `[-1]`. -/
def TableInv (t : PermittedChainGroups) : Prop :=
  ∀ n gs, getGroups t n = some gs → gs.Nodup ∧ ((-1) ∈ gs → gs = [-1])

theorem tableInv_step (acc : PermittedChainGroups) (i : Int × Int) (h : TableInv acc) :
    TableInv (permittedStep acc i) := by
  obtain ⟨n, g⟩ := i
  by_cases habs : (-1) ∈ (getGroups acc n).getD []
  · cases hget : getGroups acc n with
    | none => rw [hget] at habs; exact absurd habs (by simp)
    | some cur =>
      rw [hget] at habs
      have hc : cur = [-1] := (h n cur hget).2 habs
      rw [hc] at hget
      rw [permittedStep_absorb acc n g hget]
      exact h
  · by_cases hg : g = -1
    · subst hg
      rw [permittedStep_any acc n habs]
      intro m gs hm
      rw [getGroups_setGroups] at hm
      by_cases hmn : m = n
      · rw [if_pos hmn] at hm
        have : gs = [-1] := by injection hm with hh; exact hh.symm
        subst this
        exact ⟨by simp, fun _ => rfl⟩
      · rw [if_neg hmn] at hm
        exact h m gs hm
    · rw [permittedStep_concrete acc n g hg habs]
      have hnodup : ((getGroups acc n).getD []).Nodup := by
        cases hget : getGroups acc n with
        | none => simp
        | some cur => simpa using (h n cur hget).1
      by_cases hmem : g ∈ (getGroups acc n).getD []
      · rw [if_pos hmem]
        intro m gs hm
        rw [getGroups_setGroups] at hm
        by_cases hmn : m = n
        · rw [if_pos hmn] at hm
          have hgs : gs = (getGroups acc n).getD [] := by injection hm with hh; exact hh.symm
          subst hgs
          exact ⟨hnodup, fun hmm => absurd hmm habs⟩
        · rw [if_neg hmn] at hm
          exact h m gs hm
      · rw [if_neg hmem]
        intro m gs hm
        rw [getGroups_setGroups] at hm
        by_cases hmn : m = n
        · rw [if_pos hmn] at hm
          have hgs : gs = (getGroups acc n).getD [] ++ [g] := by injection hm with hh; exact hh.symm
          subst hgs
          constructor
          · rw [List.nodup_append]
            exact ⟨hnodup, by simp, by simpa using hmem⟩
          · intro hmm
            rcases List.mem_append.mp hmm with hmm | hmm
            · exact absurd hmm habs
            · rw [List.mem_singleton] at hmm
              exact absurd hmm.symm hg
        · rw [if_neg hmn] at hm
          exact h m gs hm

theorem tableInv_foldl (infos : List (Int × Int)) :
    ∀ acc, TableInv acc → TableInv (List.foldl permittedStep acc infos) := by
  induction infos with
  | nil => intro acc h; exact h
  | cons i rest ih => intro acc h; exact ih _ (tableInv_step acc i h)

/-- C6: every table produced by `getPermittedChainGroups` stores, for each
network, a duplicate-free group list, and when the any sentinel `-1` is present
in a network's list it is the only entry of that list. -/
theorem getPermittedChainGroups_invariant (infos : List (Int × Int)) (n : Int) (gs : List Int)
    (h : getGroups (getPermittedChainGroups infos) n = some gs) :
    gs.Nodup ∧ ((-1) ∈ gs → gs = [-1]) := by
  have hinv : TableInv (getPermittedChainGroups infos) := by
    apply tableInv_foldl
    intro m gs0 hm
    rw [getGroups_nil] at hm
    exact absurd hm (by simp)
  exact hinv n gs h

/-- Witness for C6 at the concrete reduction of the worked example. -/
theorem getPermittedChainGroups_invariant_witness :
    getGroups (getPermittedChainGroups [(4, 1), (4, 2), (4, -1), (1, 1), (1, 2)]) 4 =
        some [-1] ∧
    ([-1] : List Int).Nodup ∧ ((-1) ∈ ([-1] : List Int) → [-1] = [-1]) :=
  ⟨by decide,
    getPermittedChainGroups_invariant [(4, 1), (4, 2), (4, -1), (1, 1), (1, 2)] 4 [-1]
      (by decide)⟩

/-- C1: `getPermittedChainGroups` folds the requested pairs in input order;
a network whose running list is `[-1]` absorbs further pairs; an incoming `-1`
replaces the network's list with `[-1]`; a concrete group is appended only when
not already present; the empty input yields the empty table; and the worked
example reduces to the table mapping network 1 to `[1, 2]` and network 4 to
`[-1]`. -/
theorem getPermittedChainGroups_spec :
    getPermittedChainGroups [] = [] ∧
    (∀ acc n g, getGroups acc n = some [-1] → permittedStep acc (n, g) = acc) ∧
    (∀ acc n, (-1) ∉ (getGroups acc n).getD [] →
      getGroups (permittedStep acc (n, -1)) n = some [-1] ∧
      ∀ m, m ≠ n → getGroups (permittedStep acc (n, -1)) m = getGroups acc m) ∧
    (∀ acc n g, g ≠ -1 → (-1) ∉ (getGroups acc n).getD [] →
      getGroups (permittedStep acc (n, g)) n =
        some (if g ∈ (getGroups acc n).getD [] then (getGroups acc n).getD []
          else (getGroups acc n).getD [] ++ [g]) ∧
      ∀ m, m ≠ n → getGroups (permittedStep acc (n, g)) m = getGroups acc m) ∧
    getPermittedChainGroups [(4, 1), (4, 2), (4, -1), (1, 1), (1, 2)] =
      [(4, [-1]), (1, [1, 2])] ∧
    getGroups (getPermittedChainGroups [(4, 1), (4, 2), (4, -1), (1, 1), (1, 2)]) 1 =
      some [1, 2] ∧
    getGroups (getPermittedChainGroups [(4, 1), (4, 2), (4, -1), (1, 1), (1, 2)]) 4 =
      some [-1] := by
  refine ⟨rfl, fun acc n g h => permittedStep_absorb acc n g h, ?_, ?_, by decide, by decide,
    by decide⟩
  · intro acc n h
    rw [permittedStep_any acc n h]
    constructor
    · rw [getGroups_setGroups, if_pos rfl]
    · intro m hm
      rw [getGroups_setGroups, if_neg hm]
  · intro acc n g hg h
    rw [permittedStep_concrete acc n g hg h]
    constructor
    · by_cases hmem : g ∈ (getGroups acc n).getD []
      · rw [if_pos hmem, getGroups_setGroups, if_pos rfl, if_pos hmem]
      · rw [if_neg hmem, getGroups_setGroups, if_pos rfl, if_neg hmem]
    · intro m hm
      by_cases hmem : g ∈ (getGroups acc n).getD []
      · rw [if_pos hmem, getGroups_setGroups, if_neg hm]
      · rw [if_neg hmem, getGroups_setGroups, if_neg hm]

/-- Witness for C1: the absorbing step and the any-replacement step at
concrete tables. -/
theorem getPermittedChainGroups_spec_witness :
    permittedStep [(4, [-1])] (4, 2) = [(4, [-1])] ∧
    getGroups (permittedStep [] (4, -1)) 4 = some [-1] :=
  ⟨getPermittedChainGroups_spec.2.1 [(4, [-1])] 4 2 (by decide),
    (getPermittedChainGroups_spec.2.2.1 [] 4 (by decide)).1⟩

/-- C2: `getPermittedChainId` answers `none` when the network is absent from
the optional table; answers the any-group identifier — the one whose group part encodes `-1`,
never the concrete group's identifier — when the network's list contains `-1`;
answers the concrete group's identifier when that group is in the list; and
answers `none` otherwise — with the two worked examples. -/
theorem getPermittedChainId_spec :
    (∀ n g t, t.bind (fun t0 => getGroups t0 n) = none → getPermittedChainId n g t = none) ∧
    (∀ n g t0 gs, getGroups t0 n = some gs → (-1) ∈ gs →
      getPermittedChainId n g (some t0) = some (formatChainIdx n (-1))) ∧
    (∀ n : Int, formatChainIdx n (-1) =
      namespaceChars ++ ':' :: intToChars n ++ '/' :: "-1".data) ∧
    (∀ n g t0 gs, getGroups t0 n = some gs → (-1) ∉ gs → g ∈ gs →
      getPermittedChainId n g (some t0) = some (formatChainIdx n g)) ∧
    (∀ n g t0 gs, getGroups t0 n = some gs → (-1) ∉ gs → g ∉ gs →
      getPermittedChainId n g (some t0) = none) ∧
    getPermittedChainId 4 1 (some [(1, [1, 2]), (4, [-1])]) = some "alephium:4/-1".data ∧
    getPermittedChainId 4 3 (some [(1, [1, 2]), (4, [1, 2])]) = none := by
  refine ⟨?_, ?_, fun n => rfl, ?_, ?_, by decide, by decide⟩
  · intro n g t h
    unfold getPermittedChainId
    rw [h]
  · intro n g t0 gs h habs
    unfold getPermittedChainId
    rw [show (some t0).bind (fun t => getGroups t n) = some gs from by simpa using h]
    have hc : gs.contains (-1) = true := by simpa using habs
    simp only [hc, if_true]
  · intro n g t0 gs h habs hmem
    unfold getPermittedChainId
    rw [show (some t0).bind (fun t => getGroups t n) = some gs from by simpa using h]
    have hc1 : gs.contains (-1) = false := by simpa using habs
    have hc2 : gs.contains g = true := by simpa using hmem
    simp only [hc1, hc2, Bool.false_eq_true, if_false, if_true]
  · intro n g t0 gs h habs hmem
    unfold getPermittedChainId
    rw [show (some t0).bind (fun t => getGroups t n) = some gs from by simpa using h]
    have hc1 : gs.contains (-1) = false := by simpa using habs
    have hc2 : gs.contains g = false := by simpa using hmem
    simp only [hc1, hc2, Bool.false_eq_true, if_false]

/-- Witness for C2: the absent-network case and the any-group case at concrete
tables. -/
theorem getPermittedChainId_spec_witness :
    getPermittedChainId 5 2 none = none ∧
    getPermittedChainId 4 1 (some [(4, [-1])]) = some (formatChainIdx 4 (-1)) :=
  ⟨getPermittedChainId_spec.1 5 2 none (by decide),
    getPermittedChainId_spec.2.1 4 1 [(4, [-1])] [-1] (by decide) (by decide)⟩

/-- C3: round-trip law of the identifier codec — for every network id `n ≥ 0`
and group that is either the any sentinel (`none`) or a non-negative integer,
`parseChain` applied to the `formatChain` output recovers the pair (values read
through the evident embedding into possibly-`NaN` components). -/
theorem chain_roundtrip (n : Int) (g : Option Int) (hn : 0 ≤ n)
    (hg : ∀ v, g = some v → 0 ≤ v) :
    ∃ s, formatChain n g = .ok s ∧ parseChain s = .ok (some n, g.map some) := by
  cases g with
  | none =>
    refine ⟨namespaceChars ++ ':' :: intToChars n ++ '/' :: intToChars (-1), ?_, ?_⟩
    · unfold formatChain
      rw [if_neg (by simp)]
    · rw [parseChain_format n (-1), if_neg (by omega), if_pos rfl]
      rfl
  | some v =>
    have hv : 0 ≤ v := hg v rfl
    refine ⟨namespaceChars ++ ':' :: intToChars n ++ '/' :: intToChars v, ?_, ?_⟩
    · unfold formatChain
      rw [if_neg (by simp; omega)]
    · rw [parseChain_format n v, if_neg (by omega), if_neg (by omega)]
      rfl

/-- Witness for C3 at `n = 4`, `g = 2`, and at `n = 4`, `g` the any
sentinel. -/
theorem chain_roundtrip_witness :
    (∃ s, formatChain 4 (some 2) = .ok s ∧ parseChain s = .ok (some 4, some (some 2))) ∧
    (∃ s, formatChain 4 none = .ok s ∧ parseChain s = .ok (some 4, none)) :=
  ⟨chain_roundtrip 4 (some 2) (by decide) (fun v hv => by injection hv with h; omega),
    chain_roundtrip 4 none (by decide) (fun v hv => by cases hv)⟩

/-- C4: `formatChain` encodes the any sentinel as `-1` and concrete groups
verbatim, and throws on every negative concrete group. -/
theorem formatChain_spec :
    formatChain 4 none = .ok "alephium:4/-1".data ∧
    formatChain 4 (some 2) = .ok "alephium:4/2".data ∧
    ∀ n g, g < 0 → formatChain n (some g) =
      .error "Chain group in provider needs to be either undefined or non-negative".data := by
  refine ⟨rfl, rfl, ?_⟩
  intro n g hgl
  unfold formatChain
  rw [if_pos ⟨by simp, by simpa using hgl⟩]

/-- Witness for C4 at the negative concrete group `-1`. -/
theorem formatChain_spec_witness :
    formatChain 4 (some (-1)) =
      .error "Chain group in provider needs to be either undefined or non-negative".data :=
  formatChain_spec.2.2 4 (-1) (by decide)

/-- C5 counterexample: `parseChain` does not fail on a string that does not
match the `namespace:networkId/group` structure — on `"garbage"` it succeeds,
returning `NaN` components, where the claim requires an error. -/
theorem parseChain_malformed_no_error :
    parseChain "garbage".data = .ok (none, some none) := rfl

/-- C5 (amended): `parseChain` fails exactly when the group component parses
(by JavaScript `parseInt`) to an integer below `-1`; a structurally malformed
string yields `NaN` components without an error; a parsed `-1` group maps back
to the any sentinel, and a parsed group above `-1` is returned concretely. -/
theorem parseChain_error_iff (s : JSStr) :
    ((∃ e, parseChain s = .error e) ↔
      (∃ v, jsParseIntOpt ((jsSplitColon (jsReplaceSlash s)).get? 2) = some v ∧ v < -1)) ∧
    (jsParseIntOpt ((jsSplitColon (jsReplaceSlash s)).get? 2) = some (-1) →
      parseChain s = .ok (jsParseIntOpt ((jsSplitColon (jsReplaceSlash s)).get? 1), none)) ∧
    (∀ v, jsParseIntOpt ((jsSplitColon (jsReplaceSlash s)).get? 2) = some v → -1 < v →
      parseChain s =
        .ok (jsParseIntOpt ((jsSplitColon (jsReplaceSlash s)).get? 1), some (some v))) ∧
    (jsParseIntOpt ((jsSplitColon (jsReplaceSlash s)).get? 2) = none →
      parseChain s = .ok (jsParseIntOpt ((jsSplitColon (jsReplaceSlash s)).get? 1), some none)) := by
  refine ⟨⟨?_, ?_⟩, ?_, ?_, ?_⟩
  · rintro ⟨e, he⟩
    simp only [parseChain] at he
    cases hv : jsParseIntOpt ((jsSplitColon (jsReplaceSlash s)).get? 2) with
    | none =>
      rw [hv, if_neg (by simp [jsLt])] at he
      exact absurd he (by simp)
    | some v =>
      rw [hv] at he
      by_cases hlt : v < -1
      · exact ⟨v, rfl, hlt⟩
      · rw [if_neg (by simp only [jsLt, decide_eq_true_eq]; exact hlt)] at he
        exact absurd he (by simp)
  · rintro ⟨v, hv, hlt⟩
    refine ⟨"Chain group in protocol needs to be either -1 or non-negative".data, ?_⟩
    simp only [parseChain]
    rw [hv, if_pos (by simp only [jsLt, decide_eq_true_eq]; exact hlt)]
  · intro hv
    simp only [parseChain]
    rw [hv, if_neg (by simp [jsLt])]
    rfl
  · intro v hv hlt
    simp only [parseChain]
    rw [hv, if_neg (by simp only [jsLt, decide_eq_true_eq]; omega)]
    have hb : ((some v : JSNum) == some (-1)) = false := by
      rw [beq_eq_false_iff_ne]
      intro hh
      injection hh with hh
      omega
    simp [hb]
  · intro hv
    simp only [parseChain]
    rw [hv, if_neg (by simp [jsLt])]
    rfl

/-- Witness for C5 at the well-formed any-group identifier and at a concrete
group. -/
theorem parseChain_error_iff_witness :
    parseChain "alephium:4/-1".data =
      .ok (jsParseIntOpt ((jsSplitColon (jsReplaceSlash "alephium:4/-1".data)).get? 1), none) ∧
    parseChain "alephium:4/2".data =
      .ok (jsParseIntOpt ((jsSplitColon (jsReplaceSlash "alephium:4/2".data)).get? 1),
        some (some 2)) :=
  ⟨(parseChain_error_iff "alephium:4/-1".data).2.1 (by decide),
    (parseChain_error_iff "alephium:4/2".data).2.2.1 2 (by decide) (by decide)⟩

theorem jsReplaceSlash_append (l r : JSStr) :
    jsReplaceSlash (l ++ r) = jsReplaceSlash l ++ jsReplaceSlash r := by
  simp [jsReplaceSlash]

theorem comps_of_wire (ns nid g pk : JSStr)
    (h1 : ':' ∉ ns) (h2 : '/' ∉ ns) (h3 : ':' ∉ nid) (h4 : '/' ∉ nid)
    (h5 : ':' ∉ g) (h6 : '/' ∉ g) :
    jsSplitColon (jsReplaceSlash (ns ++ ':' :: nid ++ '/' :: g ++ ':' :: pk)) =
      ns :: nid :: g :: jsSplitColon (jsReplaceSlash pk) := by
  have e1 : jsReplaceSlash (ns ++ ':' :: nid ++ '/' :: g ++ ':' :: pk) =
      ns ++ (':' :: (nid ++ (':' :: (g ++ (':' :: jsReplaceSlash pk))))) := by
    have m1 := jsReplaceSlash_no_slash ns h2
    have m2 := jsReplaceSlash_no_slash nid h4
    have m3 := jsReplaceSlash_no_slash g h6
    simp only [jsReplaceSlash] at m1 m2 m3 ⊢
    simp [List.map_append, m1, m2, m3, List.append_assoc]
  rw [e1, jsSplitColon_append _ _ h1, jsSplitColon_append _ _ h3, jsSplitColon_append _ _ h5]

/-- C7 (amended): the current codec's `parseAccount` (in `src/provider.ts` and
in the final `src/index.ts` variant) recomputes the address from the wire
public key and the group from that address via the external cryptographic
routines, and its result does not depend on the group digits embedded in the
wire string; the legacy `src/index.ts` variant (lines 369–376), by contrast,
returns the embedded address and group verbatim. -/
theorem parseAccount_recomputes (crypto : Crypto) :
    (∀ s, (parseAccount crypto s).group =
        crypto.groupOfAddress ((parseAccount crypto s).address) ∧
      (parseAccount crypto s).address =
        crypto.addressFromPublicKey ((parseAccount crypto s).publicKey)) ∧
    (∀ ns nid g1 g2 pk, ':' ∉ ns → '/' ∉ ns → ':' ∉ nid → '/' ∉ nid →
      ':' ∉ g1 → '/' ∉ g1 → ':' ∉ g2 → '/' ∉ g2 →
      parseAccount crypto (ns ++ ':' :: nid ++ '/' :: g1 ++ ':' :: pk) =
        parseAccount crypto (ns ++ ':' :: nid ++ '/' :: g2 ++ ':' :: pk)) := by
  constructor
  · intro s
    exact ⟨rfl, rfl⟩
  · intro ns nid g1 g2 pk hh1 h2 h3 h4 h5 h6 h7 h8
    unfold parseAccount
    rw [comps_of_wire ns nid g1 pk hh1 h2 h3 h4 h5 h6,
      comps_of_wire ns nid g2 pk hh1 h2 h3 h4 h7 h8]
    rfl

/-- Witness for C7 with a concrete crypto stub and a concrete wire string. -/
theorem parseAccount_recomputes_witness :
    ((parseAccount (Crypto.mk (fun _ => "ADDR".data) (fun _ => 3))
          "alephium:4/2:PK".data).group =
        (Crypto.mk (fun _ => "ADDR".data) (fun _ => 3)).groupOfAddress
          ((parseAccount (Crypto.mk (fun _ => "ADDR".data) (fun _ => 3))
            "alephium:4/2:PK".data).address)) ∧
    parseAccount (Crypto.mk (fun _ => "ADDR".data) (fun _ => 3))
        ("alephium".data ++ ':' :: "4".data ++ '/' :: "2".data ++ ':' :: "PK".data) =
      parseAccount (Crypto.mk (fun _ => "ADDR".data) (fun _ => 3))
        ("alephium".data ++ ':' :: "4".data ++ '/' :: "3".data ++ ':' :: "PK".data) :=
  ⟨((parseAccount_recomputes (Crypto.mk (fun _ => "ADDR".data) (fun _ => 3))).1
      "alephium:4/2:PK".data).1,
    (parseAccount_recomputes (Crypto.mk (fun _ => "ADDR".data) (fun _ => 3))).2
      "alephium".data "4".data "2".data "3".data "PK".data
      (by decide) (by decide) (by decide) (by decide)
      (by decide) (by decide) (by decide) (by decide)⟩

/-- C7 counterexample: the legacy `parseAccount` of `src/index.ts` (lines
369–376) returns the group digits embedded in the wire string verbatim — two
wire strings that differ only in the embedded group digit parse to different
accounts, and under a legitimate external `groupOfAddress` assigning group 3 to
the embedded address, the returned group 2 differs from the recomputed one. -/
theorem parseAccountLegacy_trusts_wire :
    parseAccountLegacy "alephium:4/2:SOMEADDR+PK".data =
      ⟨some "SOMEADDR".data, some "PK".data, some 2⟩ ∧
    parseAccountLegacy "alephium:4/3:SOMEADDR+PK".data =
      ⟨some "SOMEADDR".data, some "PK".data, some 3⟩ ∧
    parseAccountLegacy "alephium:4/2:SOMEADDR+PK".data ≠
      parseAccountLegacy "alephium:4/3:SOMEADDR+PK".data ∧
    (parseAccountLegacy "alephium:4/2:SOMEADDR+PK".data).group ≠
      some ((Crypto.mk (fun _ => "SOMEADDR".data) (fun _ => 3)).groupOfAddress
        "SOMEADDR".data) := by
  refine ⟨by decide, by decide, by decide, by decide⟩

/-! Characterization of `setAccounts` by branch, and the two reconciler
claims. -/

theorem sameAccounts_refl (l : List AccountP) : sameAccounts l (some l) = true := by
  unfold sameAccounts
  simp

theorem setAccounts_noop (crypto : Crypto) (st : ProviderState) (accounts : List JSStr)
    (hsame : sameAccounts (accounts.map (parseAccount crypto)) st.lastSetAccounts = true) :
    setAccounts crypto st accounts = ⟨st, [], none⟩ := by
  unfold setAccounts
  simp only [hsame, if_true]

theorem setAccounts_len_err (crypto : Crypto) (st : ProviderState) (accounts : List JSStr)
    (hfresh : sameAccounts (accounts.map (parseAccount crypto)) st.lastSetAccounts = false)
    (hlen : (accounts.map (parseAccount crypto)).length ≠ 1) :
    setAccounts crypto st accounts =
      ⟨⟨st.chainGroup, st.account, some (accounts.map (parseAccount crypto))⟩, [],
        some "The WC provider does not supports multiple accounts".data⟩ := by
  unfold setAccounts
  simp only [hfresh, Bool.false_eq_true, if_false, if_pos hlen]

theorem setAccounts_group_err (crypto : Crypto) (st : ProviderState) (accounts : List JSStr)
    (hfresh : sameAccounts (accounts.map (parseAccount crypto)) st.lastSetAccounts = false)
    (hlen : (accounts.map (parseAccount crypto)).length = 1)
    (hcomp : isCompatibleChainGroup (accounts.map (parseAccount crypto)).headI.group
      st.chainGroup = false) :
    setAccounts crypto st accounts =
      ⟨⟨st.chainGroup, st.account, some (accounts.map (parseAccount crypto))⟩, [],
        some "The new account belongs to an unexpected chain group".data⟩ := by
  unfold setAccounts
  simp only [hfresh, Bool.false_eq_true, if_false,
    if_neg (show ¬ (accounts.map (parseAccount crypto)).length ≠ 1 by omega), hcomp]
  simp [hlen]

theorem setAccounts_accept (crypto : Crypto) (st : ProviderState) (accounts : List JSStr)
    (hfresh : sameAccounts (accounts.map (parseAccount crypto)) st.lastSetAccounts = false)
    (hlen : (accounts.map (parseAccount crypto)).length = 1)
    (hcomp : isCompatibleChainGroup (accounts.map (parseAccount crypto)).headI.group
      st.chainGroup = true) :
    setAccounts crypto st accounts =
      ⟨⟨st.chainGroup, some (accounts.map (parseAccount crypto)).headI,
          some (accounts.map (parseAccount crypto))⟩,
        [(accounts.map (parseAccount crypto)).headI], none⟩ := by
  unfold setAccounts
  simp only [hfresh, Bool.false_eq_true, if_false,
    if_neg (show ¬ (accounts.map (parseAccount crypto)).length ≠ 1 by omega), hcomp]
  simp [hlen]

/-- C8: a second delivery of the identical account list to `setAccounts` is
always a no-op — it leaves the stored state unchanged, emits nothing and throws
nothing — and when the first delivery is fresh and accepted it emits exactly
one `accountChanged` event, so the pair of deliveries produces exactly one
event. -/
theorem setAccounts_idempotent (crypto : Crypto) (st : ProviderState) (accounts : List JSStr) :
    (setAccounts crypto (setAccounts crypto st accounts).state accounts =
      ⟨(setAccounts crypto st accounts).state, [], none⟩) ∧
    ((setAccounts crypto st accounts).thrown = none →
      sameAccounts (accounts.map (parseAccount crypto)) st.lastSetAccounts = false →
      (setAccounts crypto st accounts).emitted.length = 1) := by
  by_cases hsame : sameAccounts (accounts.map (parseAccount crypto)) st.lastSetAccounts = true
  · rw [setAccounts_noop crypto st accounts hsame]
    exact ⟨setAccounts_noop crypto st accounts hsame,
      fun _ hfresh => absurd hsame (by simp [hfresh])⟩
  · have hfresh : sameAccounts (accounts.map (parseAccount crypto)) st.lastSetAccounts
        = false := by
      revert hsame
      cases sameAccounts (accounts.map (parseAccount crypto)) st.lastSetAccounts <;> simp
    by_cases hlen : (accounts.map (parseAccount crypto)).length = 1
    · by_cases hcomp : isCompatibleChainGroup (accounts.map (parseAccount crypto)).headI.group
          st.chainGroup = true
      · rw [setAccounts_accept crypto st accounts hfresh hlen hcomp]
        exact ⟨setAccounts_noop crypto _ accounts (sameAccounts_refl _), fun _ _ => rfl⟩
      · have hcomp2 : isCompatibleChainGroup (accounts.map (parseAccount crypto)).headI.group
            st.chainGroup = false := by
          revert hcomp
          cases isCompatibleChainGroup (accounts.map (parseAccount crypto)).headI.group
            st.chainGroup <;> simp
        rw [setAccounts_group_err crypto st accounts hfresh hlen hcomp2]
        exact ⟨setAccounts_noop crypto _ accounts (sameAccounts_refl _),
          fun herr _ => absurd herr (by simp)⟩
    · rw [setAccounts_len_err crypto st accounts hfresh hlen]
      exact ⟨setAccounts_noop crypto _ accounts (sameAccounts_refl _),
        fun herr _ => absurd herr (by simp)⟩

/-- Witness for C8 with a concrete crypto stub, empty starting state, and one
wire account. -/
theorem setAccounts_idempotent_witness :
    setAccounts (Crypto.mk (fun _ => "ADDR".data) (fun _ => 0))
        (setAccounts (Crypto.mk (fun _ => "ADDR".data) (fun _ => 0)) ⟨none, none, none⟩
          ["alephium:4/0:PK".data]).state ["alephium:4/0:PK".data] =
      ⟨(setAccounts (Crypto.mk (fun _ => "ADDR".data) (fun _ => 0)) ⟨none, none, none⟩
          ["alephium:4/0:PK".data]).state, [], none⟩ ∧
    (setAccounts (Crypto.mk (fun _ => "ADDR".data) (fun _ => 0)) ⟨none, none, none⟩
        ["alephium:4/0:PK".data]).emitted.length = 1 :=
  ⟨(setAccounts_idempotent (Crypto.mk (fun _ => "ADDR".data) (fun _ => 0)) ⟨none, none, none⟩
      ["alephium:4/0:PK".data]).1,
    (setAccounts_idempotent (Crypto.mk (fun _ => "ADDR".data) (fun _ => 0)) ⟨none, none, none⟩
      ["alephium:4/0:PK".data]).2 (by decide) (by decide)⟩

/-- C10: on a fresh account-list update, `setAccounts` throws the
multiple-accounts message whenever the parsed list is not a singleton, and the
chain-group message when the single account's group is incompatible with the
configured chain group; in both cases the selected account is unchanged and no
event is emitted (only the last-seen list is recorded). -/
theorem setAccounts_rejections (crypto : Crypto) (st : ProviderState) (accounts : List JSStr)
    (hfresh : sameAccounts (accounts.map (parseAccount crypto)) st.lastSetAccounts = false) :
    ((accounts.map (parseAccount crypto)).length ≠ 1 →
      setAccounts crypto st accounts =
        ⟨⟨st.chainGroup, st.account, some (accounts.map (parseAccount crypto))⟩, [],
          some "The WC provider does not supports multiple accounts".data⟩) ∧
    ((accounts.map (parseAccount crypto)).length = 1 →
      isCompatibleChainGroup (accounts.map (parseAccount crypto)).headI.group
          st.chainGroup = false →
      setAccounts crypto st accounts =
        ⟨⟨st.chainGroup, st.account, some (accounts.map (parseAccount crypto))⟩, [],
          some "The new account belongs to an unexpected chain group".data⟩) :=
  ⟨fun hlen => setAccounts_len_err crypto st accounts hfresh hlen,
    fun hlen hcomp => setAccounts_group_err crypto st accounts hfresh hlen hcomp⟩

/-- Witness for C10: a two-account update is rejected with the
multiple-accounts message, leaving the selected account unchanged. -/
theorem setAccounts_rejections_witness :
    setAccounts (Crypto.mk (fun pk => pk.getD []) (fun _ => 0)) ⟨some 2, none, none⟩
        ["alephium:4/0:PK1".data, "alephium:4/0:PK2".data] =
      ⟨⟨some 2, none,
          some (["alephium:4/0:PK1".data, "alephium:4/0:PK2".data].map
            (parseAccount (Crypto.mk (fun pk => pk.getD []) (fun _ => 0))))⟩, [],
        some "The WC provider does not supports multiple accounts".data⟩ :=
  (setAccounts_rejections (Crypto.mk (fun pk => pk.getD []) (fun _ => 0)) ⟨some 2, none, none⟩
      ["alephium:4/0:PK1".data, "alephium:4/0:PK2".data] (by decide)).1 (by decide)

/-- C9: the request gate rejects a method outside the configured list; for a
configured method that does not start with `alph_request` it rejects a missing
`params.signerAddress` and rejects a `signerAddress` differing from the
selected account's address; a configured `alph_request*` method is forwarded
without any signer-address check. -/
theorem request_gate (methods : List JSStr) (account : Option AccountP) (args : RequestArgs) :
    (methods.contains args.method = true →
      ("alph_request".data).isPrefixOf args.method = false →
      (args.params.bind (fun p => p.signerAddress) = none →
        request methods account args = .error "Cannot request without signerAddress".data) ∧
      (∀ sa acc, args.params.bind (fun p => p.signerAddress) = some sa → account = some acc →
        sa ≠ acc.address →
        request methods account args = .error ("Invalid signer address: ".data ++ sa))) ∧
    (methods.contains args.method = true →
      ("alph_request".data).isPrefixOf args.method = true →
      request methods account args = .ok (args.method, args.params)) ∧
    (methods.contains args.method = false →
      request methods account args = .error ("Invalid method was passed: ".data ++ args.method)) := by
  refine ⟨?_, ?_, ?_⟩
  · intro hm hp
    constructor
    · intro hsa
      unfold request
      rw [hm, hp, hsa]
      rfl
    · intro sa acc hsa hacc hne
      unfold request
      rw [hm, hp, hsa, hacc]
      simp only [Bool.not_true, Bool.false_eq_true, if_false, Bool.not_false, if_true]
      rw [if_pos hne]
  · intro hm hp
    unfold request
    rw [hm, hp]
    rfl
  · intro hm
    unfold request
    rw [hm]
    rfl

/-- Witness for C9: a configured signer method with a missing signer address is
rejected; a configured `alph_request*` method is forwarded untouched. -/
theorem request_gate_witness :
    request ["alph_signMessage".data] (some ⟨"ADDR".data, 0, none⟩)
        ⟨"alph_signMessage".data, some ⟨none⟩⟩ =
      .error "Cannot request without signerAddress".data ∧
    request ["alph_requestNodeApi".data] none ⟨"alph_requestNodeApi".data, none⟩ =
      .ok ("alph_requestNodeApi".data, none) :=
  ⟨((request_gate ["alph_signMessage".data] (some ⟨"ADDR".data, 0, none⟩)
        ⟨"alph_signMessage".data, some ⟨none⟩⟩).1 (by decide) (by decide)).1 (by decide),
    (request_gate ["alph_requestNodeApi".data] none
        ⟨"alph_requestNodeApi".data, none⟩).2.1 (by decide) (by decide)⟩

end WCModel
